import Mathlib

/-!
Shallow embedding of `src/vs/workbench/browser/parts/editor/editorParts.ts`
(the `EditorParts` coordinator of VS Code's editor-group service).

Groups and documents are identified by natural numbers; the localized
display label "Window {n}" is modelled by its ordinal `n`.  The
`MultiWindowParts` base class and the `EditorPart` collaborator live
outside this repository snapshot, so their small surface (registry list,
per-part group accessors, display-surface provider) is modelled from the
spec, as marked on each definition.
-/

/-- The enumeration order for groups (`GroupsOrder` in editorGroupsService). -/
inductive GroupsOrder where
  | creationTime
  | gridAppearance
  | mostRecentlyActive
deriving DecidableEq, Repr

/-- Screen bounds of an auxiliary window (`IRectangle`). -/
structure IRectangle where
  x : Int
  y : Int
  width : Int
  height : Int
deriving DecidableEq, Repr

/-- Modelled from the spec: the Part collaborator (`EditorPart`, outside this
snapshot).  A Part has an identity, a set of owned groups (reported in the
order the Part itself enumerates them), a display-surface handle (its owner
document), an opaque serializable layout snapshot, and the bounds/zoom that
the display-surface provider reports for it (`none` when unresolved). -/
structure EditorPart where
  id : Nat
  groups : List Nat
  document : Nat
  uiState : Nat
  bounds : Option IRectangle
  zoomLevel : Option Int
deriving DecidableEq, Repr

/-- Modelled from the spec: `EditorPart.hasGroup(id)` — whether the Part's
owned-group set contains the identifier. -/
def EditorPart.hasGroup (p : EditorPart) (identifier : Nat) : Bool :=
  p.groups.contains identifier

/-- Modelled from the spec: `EditorPart.getGroup(id)` — the Part's live group
for the identifier, if owned. -/
def EditorPart.getGroup (p : EditorPart) (identifier : Nat) : Option Nat :=
  if identifier ∈ p.groups then some identifier else none

/-- Modelled from the spec: `EditorPart.getGroups(order)` — the Part's own
group enumeration (its internal ordering is opaque to the coordinator). -/
def EditorPart.getGroups (p : EditorPart) (_order : GroupsOrder) : List Nat :=
  p.groups

/-- Modelled from the spec: `EditorPart.createState()` — the Part's opaque
serializable layout snapshot. -/
def EditorPart.createState (p : EditorPart) : Nat :=
  p.uiState

/-- The coordinator state: the main part, the registry of parts in
registration order (`MultiWindowParts._parts` / `parts`, modelled from the
spec: a registration-ordered list, main part registered first), the MRU list
`mostRecentActiveParts`, and the labels last pushed to parts
(`notifyGroupsLabelChange`), as an association list from part id to the
label ordinal, most recent notification first. -/
structure EditorPartsState where
  mainPart : EditorPart
  parts : List EditorPart
  mostRecentActiveParts : List EditorPart
  labels : List (Nat × Nat)
deriving DecidableEq, Repr

/-- Construction (`EditorParts` constructor): the main part is created and
registered, and the MRU list starts as `[this.mainPart]`. -/
def EditorPartsState.init (main : EditorPart) : EditorPartsState :=
  { mainPart := main, parts := [main], mostRecentActiveParts := [main], labels := [] }

/-- The `getGroupsLabel(index)`: `localize('groupLabel', "Window {0}", index + 1)`,
modelled by the ordinal `index + 1`. -/
def getGroupsLabel (index : Nat) : Nat :=
  index + 1

/-- The `doUpdateMostRecentActive(part, makeMostRecentlyActive)`: remove the part
from the MRU list if present (indexOf + splice removes the first occurrence),
then unshift it to the front when `makeMostRecentlyActive` is set. -/
def doUpdateMostRecentActive (mru : List EditorPart) (part : EditorPart)
    (makeMostRecentlyActive : Bool) : List EditorPart :=
  let removed := mru.erase part
  if makeMostRecentlyActive then part :: removed else removed

/-- The `onDidFocus` listener installed by `registerEditorPartListeners`:
updates the MRU list with `makeMostRecentlyActive = true` and fires the
coordinator's `_onDidActiveGroupChange` only when more than one part is
registered.  The returned Boolean records whether that re-broadcast fired. -/
def onPartDidFocus (s : EditorPartsState) (part : EditorPart) :
    EditorPartsState × Bool :=
  ({ s with mostRecentActiveParts :=
      doUpdateMostRecentActive s.mostRecentActiveParts part true },
   decide (1 < s.parts.length))

/-- Modelled from the spec: `MultiWindowParts.registerPart` (outside this
snapshot) adds the part to the registry, in registration order. -/
def registerPart (s : EditorPartsState) (part : EditorPart) : EditorPartsState :=
  { s with parts := s.parts ++ [part] }

/-- The `createAuxiliaryEditorPart(options)`: the new auxiliary part is created
with the label `getGroupsLabel(this._parts.size)` (the registry size before
registration) and registered. -/
def createAuxiliaryEditorPart (s : EditorPartsState) (part : EditorPart) :
    EditorPartsState :=
  let label := getGroupsLabel s.parts.length
  let registered := registerPart s part
  { registered with labels := (part.id, label) :: registered.labels }

/-- The relabel loop of `unregisterPart`:
`this.parts.forEach((part, index) => { if (part === this.mainPart) return;
part.notifyGroupsLabelChange(this.getGroupsLabel(index)) })`, written as a
recursion over the parts list carrying the running index. -/
def relabelFrom (mainPart : EditorPart) (index : Nat) :
    List EditorPart → List (Nat × Nat)
  | [] => []
  | p :: rest =>
    if p = mainPart then relabelFrom mainPart (index + 1) rest
    else (p.id, getGroupsLabel index) :: relabelFrom mainPart (index + 1) rest

/-- The `unregisterPart(part)` together with the disposal of the part's listener
bundle: the part leaves the registry (base-class removal, modelled from the
spec as erasing it from the registration-ordered list), every remaining
non-main part is notified of its recomputed label, and the MRU list is
updated with removal only (`toDisposable(() => this.doUpdateMostRecentActive(part))`). -/
def unregisterPart (s : EditorPartsState) (part : EditorPart) : EditorPartsState :=
  let remaining := s.parts.erase part
  { s with
      parts := remaining,
      labels := relabelFrom s.mainPart 0 remaining ++ s.labels,
      mostRecentActiveParts :=
        doUpdateMostRecentActive s.mostRecentActiveParts part false }

/-- The label a part currently displays: the most recent notification pushed
for its id (creation label or relabel). -/
def labelOf (s : EditorPartsState) (partId : Nat) : Option Nat :=
  s.labels.lookup partId

/-- Input to `getPart`: a group view or group identifier (both identify a
group), or a display-surface element (identified by its owner document). -/
inductive PartResolveInput where
  | group (id : Nat)
  | element (document : Nat)
deriving DecidableEq, Repr

/-- Modelled from the spec: `MultiWindowParts.getPartByDocument` (outside this
snapshot) — returns the Part bound to the display surface owning the
document, the main part when none matches. -/
def getPartByDocument (s : EditorPartsState) (document : Nat) : EditorPart :=
  match s.parts.find? (fun p => p.document == document) with
  | some part => part
  | none => s.mainPart

/-- The `getPart(groupOrElement)`: when more than one part is registered, an
element resolves through its owner document and a group or identifier scans
the registered parts for the first whose `hasGroup` holds; in every other
case (including no part matching) the main part is returned. -/
def getPart (s : EditorPartsState) (input : PartResolveInput) : EditorPart :=
  if 1 < s.parts.length then
    match input with
    | .element document => getPartByDocument s document
    | .group id =>
      match s.parts.find? (fun part => part.hasGroup id) with
      | some part => part
      | none => s.mainPart
  else s.mainPart

/-- The `distinct` from vs/base arrays: keeps the first occurrence of each
element, preserving order. -/
def distinctParts : List EditorPart → List EditorPart
  | [] => []
  | p :: rest => p :: distinctParts (rest.filter (fun q => q ≠ p))
termination_by l => l.length
decreasing_by
  simp only [List.length_cons]
  exact Nat.lt_succ_of_le (List.length_filter_le _ _)

/-- The `getGroups(order)`: with more than one part, concatenate each part's own
groups, parts taken in registration order for creation-time and
grid-appearance order, and in `distinct([...mostRecentActiveParts, ...parts])`
order for most-recently-active; with at most one part, delegate to the main
part. -/
def getGroups (s : EditorPartsState) (order : GroupsOrder) : List Nat :=
  if 1 < s.parts.length then
    let orderedParts :=
      match order with
      | .gridAppearance => s.parts
      | .creationTime => s.parts
      | .mostRecentlyActive => distinctParts (s.mostRecentActiveParts ++ s.parts)
    (orderedParts.map (fun part => part.getGroups order)).flatten
  else s.mainPart.getGroups order

/-- The `getGroup(identifier)`: with more than one part, return the first
registered part's live group for the identifier; fall through to the main
part's own lookup otherwise. -/
def getGroup (s : EditorPartsState) (identifier : Nat) : Option Nat :=
  if 1 < s.parts.length then
    match s.parts.findSome? (fun part => part.getGroup identifier) with
    | some group => some group
    | none => s.mainPart.getGroup identifier
  else s.mainPart.getGroup identifier

/-- Argument of the group-targeted operations: a concrete group view or a
group identifier. -/
inductive GroupArg where
  | identifier (id : Nat)
  | view (group : Nat)
deriving DecidableEq, Repr

/-- The group id an argument designates (a view is identified by its id). -/
def GroupArg.gid : GroupArg → Nat
  | .identifier id => id
  | .view group => group

/-- The `assertGroupView(group)`: an identifier is resolved through `getGroup`, a
concrete view is taken as is; resolution yielding nothing raises the
invalid-group error synchronously. -/
def assertGroupView (s : EditorPartsState) (group : GroupArg) : Except String Nat :=
  let groupView : Option Nat :=
    match group with
    | .identifier id => getGroup s id
    | .view g => some g
  match groupView with
  | none => .error "Invalid editor group provided!"
  | some g => .ok g

/-- The `GroupLocation` of a find-group scope. -/
inductive GroupLocation where
  | first
  | last
  | next
  | previous
deriving DecidableEq, Repr

/-- The `IFindGroupScope`: either a direction (opaque here) or a location. -/
inductive FindGroupScope where
  | direction (d : Nat)
  | location (l : GroupLocation)
deriving DecidableEq, Repr

/-- JavaScript `Array.prototype.indexOf`: first index, `-1` when absent. -/
def jsIndexOf (groups : List Nat) (g : Nat) : Int :=
  if g ∈ groups then (List.indexOf g groups : Int) else -1

/-- JavaScript indexing `groups[i]`: `undefined` (here `none`) out of range. -/
def jsGet (groups : List Nat) (i : Int) : Option Nat :=
  if 0 ≤ i then groups.get? i.toNat else none

/-- The `findGroup(scope, source, wrap)`.  The part-local search
`sourcePart.findGroup` belongs to the Part collaborator and is passed in as
`localFind`.  With more than one part: FIRST/LAST answer globally from the
grid-appearance list; otherwise the owning part is searched without
wrapping, and on failure NEXT/PREVIOUS step from the source's global index,
`wrap` applying only at the global ends; any other scope retries the local
search with the caller's `wrap`.  With at most one part the call delegates
to the local search directly. -/
def findGroup (localFind : EditorPart → FindGroupScope → GroupArg → Bool → Option Nat)
    (s : EditorPartsState) (scope : FindGroupScope) (source : GroupArg)
    (wrap : Bool) : Except String (Option Nat) :=
  let sourcePart := getPart s (.group source.gid)
  if 1 < s.parts.length then
    let groups := getGroups s .gridAppearance
    if scope = .location .first ∨ scope = .location .last then
      .ok (if scope = .location .first then groups.head? else groups.getLast?)
    else
      match localFind sourcePart scope source false with
      | some group => .ok (some group)
      | none =>
        if scope = .location .next ∨ scope = .location .previous then
          match assertGroupView s source with
          | .error e => .error e
          | .ok sourceGroup =>
            let index := jsIndexOf groups sourceGroup
            if scope = .location .next then
              let nextGroup := jsGet groups (index + 1)
              .ok (if nextGroup = none ∧ wrap then groups.head? else nextGroup)
            else
              let previousGroup := jsGet groups (index - 1)
              .ok (if previousGroup = none ∧ wrap then groups.getLast? else previousGroup)
        else
          .ok (localFind sourcePart scope source wrap)
  else .ok (localFind sourcePart scope source wrap)

/-- Per-auxiliary-part entry of the persisted snapshot
(`IAuxiliaryEditorPartState`). -/
structure IAuxiliaryEditorPartState where
  state : Nat
  bounds : Option IRectangle
  zoomLevel : Option Int
deriving DecidableEq, Repr

/-- The persisted snapshot (`IEditorPartsUIState`): one entry per auxiliary
part plus the MRU recorded as positions (JavaScript numbers, `-1` possible). -/
structure IEditorPartsUIState where
  auxiliary : List IAuxiliaryEditorPartState
  mru : List Int
deriving DecidableEq, Repr

/-- JavaScript `Array.prototype.indexOf` on the parts array. -/
def jsIndexOfPart (parts : List EditorPart) (p : EditorPart) : Int :=
  if p ∈ parts then (List.indexOf p parts : Int) else -1

/-- The `undefined` value produced by indexing the parts array out of range. -/
def undefinedPart : EditorPart :=
  { id := 0, groups := [], document := 0, uiState := 0, bounds := none, zoomLevel := none }

/-- JavaScript indexing `this.parts[index]` used by the restore path. -/
def jsPartAt (parts : List EditorPart) (i : Int) : EditorPart :=
  if 0 ≤ i then (parts.get? i.toNat).getD undefinedPart else undefinedPart

/-- The MRU-rebuild step of `restoreParts` (lines 206–229): runs only when
the main part will restore state and a snapshot with a nonempty `auxiliary`
list was read; after the creation fan-out has settled (`parts` is the
now-current registry), the saved MRU positions are mapped over the parts
array when their count matches the part count, and the registry order is
taken as the MRU list otherwise. -/
def restoreMruUpdate (willRestoreState : Bool) (uiState : Option IEditorPartsUIState)
    (parts : List EditorPart) (mostRecentActiveParts : List EditorPart) :
    List EditorPart :=
  if willRestoreState then
    match uiState with
    | some u =>
      if u.auxiliary.length ≠ 0 then
        if u.mru.length = parts.length then u.mru.map (fun index => jsPartAt parts index)
        else parts
      else mostRecentActiveParts
    | none => mostRecentActiveParts
  else mostRecentActiveParts

/-- The `saveState()`: build the snapshot from every registered non-main part
(layout snapshot, bounds and zoom as reported by the display-surface
provider) and the MRU as positions within the current parts array; with zero
auxiliary entries the stored value is deleted (`none`), otherwise the
snapshot is written. -/
def saveState (s : EditorPartsState) : Option IEditorPartsUIState :=
  let uiState : IEditorPartsUIState :=
    { auxiliary :=
        (s.parts.filter (fun part => part ≠ s.mainPart)).map (fun part =>
          { state := part.createState, bounds := part.bounds,
            zoomLevel := part.zoomLevel }),
      mru := s.mostRecentActiveParts.map (fun part => jsIndexOfPart s.parts part) }
  if uiState.auxiliary.length = 0 then none else some uiState

/-- A concrete main part used by the witnesses. -/
def exMain : EditorPart :=
  { id := 0, groups := [10, 11], document := 100, uiState := 5, bounds := none, zoomLevel := none }

/-- A concrete first auxiliary part. -/
def exAux1 : EditorPart :=
  { id := 1, groups := [20], document := 101, uiState := 6, bounds := none, zoomLevel := none }

/-- A concrete second auxiliary part. -/
def exAux2 : EditorPart :=
  { id := 2, groups := [30, 31], document := 102, uiState := 7, bounds := none, zoomLevel := none }

/-- A concrete third auxiliary part. -/
def exAux3 : EditorPart :=
  { id := 3, groups := [40], document := 103, uiState := 8, bounds := none, zoomLevel := none }

/-- The freshly constructed coordinator over `exMain`. -/
def exState0 : EditorPartsState := EditorPartsState.init exMain

/-- The `exState0` after creating `exAux1`. -/
def exState1 : EditorPartsState := createAuxiliaryEditorPart exState0 exAux1

/-- The `exState1` after creating `exAux2`. -/
def exState2 : EditorPartsState := createAuxiliaryEditorPart exState1 exAux2

/-- The `exState2` after creating `exAux3`. -/
def exState3 : EditorPartsState := createAuxiliaryEditorPart exState2 exAux3

/-! Helper lemmas and concrete fixtures. -/

lemma find?_eq_some_of_prefix {α : Type} (pred : α → Bool) :
    ∀ (l : List α) (i : Nat) (p : α), l.get? i = some p → pred p = true →
      (∀ j q, j < i → l.get? j = some q → pred q = false) →
      l.find? pred = some p := by
  intro l
  induction l with
  | nil => intro i p hget _ _; simp at hget
  | cons a rest ih =>
    intro i p hget hp hpre
    cases i with
    | zero =>
      simp only [List.get?] at hget
      cases hget
      simp [List.find?, hp]
    | succ j =>
      have ha : pred a = false := hpre 0 a (Nat.succ_pos j) rfl
      simp only [List.get?] at hget
      simp only [List.find?, ha]
      exact ih j p hget hp (fun j' q hj' hq' =>
        hpre (j' + 1) q (Nat.succ_lt_succ hj') hq')

lemma lookup_append_of_some {β : Type} (l₁ l₂ : List (Nat × β)) (a : Nat) (v : β)
    (h : l₁.lookup a = some v) : (l₁ ++ l₂).lookup a = some v := by
  induction l₁ with
  | nil => simp at h
  | cons e rest ih =>
    obtain ⟨k, b⟩ := e
    by_cases hk : (a == k) = true
    · simp [List.lookup, hk] at h ⊢
      exact h
    · simp only [Bool.not_eq_true] at hk
      simp [List.lookup, hk] at h ⊢
      exact ih h

/-- C1: with exactly one registered Part, `getPart` returns the main part for
every input (group, identifier or display-surface element), even one matching
no known group; with more than one registered Part, a group or identifier
input resolves to the first registered Part whose owned-group set contains
it, and to the main part when no registered Part contains it. -/
theorem getPart_lenient_resolution (s : EditorPartsState) :
    (s.parts.length = 1 → ∀ input : PartResolveInput, getPart s input = s.mainPart) ∧
    (1 < s.parts.length → ∀ id : Nat,
      (∀ i p, s.parts.get? i = some p → p.hasGroup id = true →
        (∀ j q, j < i → s.parts.get? j = some q → q.hasGroup id = false) →
        getPart s (.group id) = p) ∧
      ((∀ p ∈ s.parts, p.hasGroup id = false) → getPart s (.group id) = s.mainPart)) := by
  refine ⟨fun h1 input => ?_, fun hm id => ⟨fun i p hget hp hpre => ?_, fun hall => ?_⟩⟩
  · simp [getPart, h1]
  · have hf := find?_eq_some_of_prefix (fun part => part.hasGroup id) s.parts i p hget hp hpre
    simp [getPart, hm, hf]
  · have hf : s.parts.find? (fun part => part.hasGroup id) = none := by
      rw [List.find?_eq_none]
      intro x hx
      simp [hall x hx]
    simp [getPart, hm, hf]

/-- C1 witness: concrete resolutions at one and three registered parts. -/
theorem getPart_lenient_resolution_witness :
    getPart exState0 (.group 999) = exState0.mainPart ∧
    getPart exState2 (.group 10) = exMain ∧
    getPart exState2 (.group 999) = exState2.mainPart := by
  have h0 := getPart_lenient_resolution exState0
  have h2 := getPart_lenient_resolution exState2
  refine ⟨h0.1 (by decide) _, ?_, (h2.2 (by decide) 999).2 (by decide)⟩
  exact (h2.2 (by decide) 10).1 0 exMain (by decide) (by decide)
    (fun j q hj _ => absurd hj (Nat.not_lt_zero j))

/-- C2: the MRU list is mutated only by removal-then-front-insertion on focus
and removal on unregistration; for distinct parts P and Q, the sequence
focus(P), focus(Q), unregister(Q) leaves P at the head and Q absent, and
both mutations preserve freedom from duplicates. -/
theorem mru_two_rules (l : List EditorPart) (P Q : EditorPart)
    (hnd : l.Nodup) (hne : P ≠ Q) :
    (doUpdateMostRecentActive (doUpdateMostRecentActive
        (doUpdateMostRecentActive l P true) Q true) Q false).head? = some P ∧
    Q ∉ doUpdateMostRecentActive (doUpdateMostRecentActive
        (doUpdateMostRecentActive l P true) Q true) Q false ∧
    (∀ (m : List EditorPart) (p : EditorPart) (b : Bool), m.Nodup →
      (doUpdateMostRecentActive m p b).Nodup) ∧
    (∀ (m : List EditorPart) (p : EditorPart),
      doUpdateMostRecentActive m p false = m.erase p) := by
  have hPQ : ¬(P == Q) = true := by simp [hne]
  have e1 : doUpdateMostRecentActive l P true = P :: l.erase P := rfl
  have e2 : doUpdateMostRecentActive (P :: l.erase P) Q true
      = Q :: P :: (l.erase P).erase Q := by
    simp [doUpdateMostRecentActive, List.erase_cons_tail hPQ]
  have e3 : doUpdateMostRecentActive (Q :: P :: (l.erase P).erase Q) Q false
      = P :: (l.erase P).erase Q := by
    simp [doUpdateMostRecentActive, List.erase_cons_head]
  rw [e1, e2, e3]
  refine ⟨rfl, ?_, fun m p b hm => ?_, fun m p => rfl⟩
  · intro hmem
    rcases List.mem_cons.mp hmem with h | h
    · exact hne h.symm
    · exact (hnd.erase P).not_mem_erase h
  · cases b with
    | false => exact hm.erase p
    | true =>
      exact List.nodup_cons.mpr ⟨hm.not_mem_erase, hm.erase p⟩

/-- C2 witness: the focus-focus-unregister scenario at concrete parts. -/
theorem mru_two_rules_witness :
    (doUpdateMostRecentActive (doUpdateMostRecentActive
        (doUpdateMostRecentActive [exMain] exAux1 true) exAux2 true) exAux2 false).head?
      = some exAux1 ∧
    exAux2 ∉ doUpdateMostRecentActive (doUpdateMostRecentActive
        (doUpdateMostRecentActive [exMain] exAux1 true) exAux2 true) exAux2 false := by
  have h := mru_two_rules [exMain] exAux1 exAux2 (by decide) (by decide)
  exact ⟨h.1, h.2.1⟩

/-- C8: on a Part's focus event the coordinator re-broadcasts an
active-group-changed event if and only if more than one Part is registered,
and the MRU list is updated (front insertion) in both cases. -/
theorem focus_rebroadcast_iff_multipart (s : EditorPartsState) (part : EditorPart) :
    ((onPartDidFocus s part).2 = true ↔ 1 < s.parts.length) ∧
    (onPartDidFocus s part).1.mostRecentActiveParts
      = part :: s.mostRecentActiveParts.erase part := by
  exact ⟨by simp [onPartDidFocus], rfl⟩

lemma lookup_relabelFrom (main : EditorPart) :
    ∀ (l : List EditorPart) (k i : Nat) (part : EditorPart),
      (l.map EditorPart.id).Nodup → l.get? i = some part → part ≠ main →
      (relabelFrom main k l).lookup part.id = some (getGroupsLabel (k + i)) := by
  intro l
  induction l with
  | nil => intro k i part _ hget _; simp at hget
  | cons p rest ih =>
    intro k i part hnd hget hne
    rw [List.map_cons, List.nodup_cons] at hnd
    cases i with
    | zero =>
      rw [List.get?_cons_zero] at hget
      injection hget with hp
      subst hp
      rw [relabelFrom, if_neg hne]
      simp [List.lookup_cons, getGroupsLabel]
    | succ j =>
      rw [List.get?_cons_succ] at hget
      have hmem : part ∈ rest := List.get?_mem hget
      have hid : part.id ∈ rest.map EditorPart.id := List.mem_map.mpr ⟨part, hmem, rfl⟩
      by_cases hpm : p = main
      · rw [relabelFrom, if_pos hpm]
        rw [ih (k + 1) j part hnd.2 hget hne]
        congr 1
        simp [getGroupsLabel]
        omega
      · rw [relabelFrom, if_neg hpm]
        have hneid : (part.id == p.id) = false := by
          simp only [beq_eq_false_iff_ne]
          intro he
          exact hnd.1 (he ▸ hid)
        rw [List.lookup_cons]
        simp only [hneid]
        rw [ih (k + 1) j part hnd.2 hget hne]
        congr 1
        simp [getGroupsLabel]
        omega

/-- C3 counterexample: in the reachable state `exState2` (main part plus two
auxiliary parts), the auxiliary part at position 0 among the auxiliary parts
carries the display label with ordinal 2, not the claimed ordinal 0 + 1. -/
theorem label_base_ordinal_counterexample :
    (exState2.parts.filter (fun p => p ≠ exState2.mainPart)).get? 0 = some exAux1 ∧
    labelOf exState2 exAux1.id = some 2 ∧
    ¬ labelOf exState2 exAux1.id = some (0 + 1) := by decide

/-- C3 amended: labels are dense ordinals computed from the position in the
full parts array (main part included at position 0), so the auxiliary part at
position i of the full array carries ordinal i + 1 — equivalently, the
auxiliary part at position j among the auxiliary parts carries ordinal j + 2 —
and on every unregistration every remaining auxiliary part's label is
recomputed and pushed to it. -/
theorem unregister_relabels_dense (s : EditorPartsState) (removed : EditorPart)
    (hids : ((s.parts.erase removed).map EditorPart.id).Nodup) :
    (∀ i part, (unregisterPart s removed).parts.get? i = some part →
      part ≠ s.mainPart →
      labelOf (unregisterPart s removed) part.id = some (i + 1)) ∧
    (∀ auxes j q, (unregisterPart s removed).parts = s.mainPart :: auxes →
      auxes.get? j = some q → q ≠ s.mainPart →
      labelOf (unregisterPart s removed) q.id = some (j + 2)) := by
  have hparts : (unregisterPart s removed).parts = s.parts.erase removed := rfl
  have hlab : (unregisterPart s removed).labels
      = relabelFrom s.mainPart 0 (s.parts.erase removed) ++ s.labels := rfl
  have hmainthm : ∀ i part, (unregisterPart s removed).parts.get? i = some part →
      part ≠ s.mainPart →
      labelOf (unregisterPart s removed) part.id = some (i + 1) := by
    intro i part hget hne
    rw [hparts] at hget
    have h := lookup_relabelFrom s.mainPart (s.parts.erase removed) 0 i part hids hget hne
    unfold labelOf
    rw [hlab, lookup_append_of_some _ s.labels part.id _ h]
    simp [getGroupsLabel]
  refine ⟨hmainthm, fun auxes j q heq hget hne => ?_⟩
  have hfull : (unregisterPart s removed).parts.get? (j + 1) = some q := by
    rw [heq, List.get?_cons_succ]
    exact hget
  have h2 := hmainthm (j + 1) q hfull hne
  exact h2

/-- C3 amended witness: unregistering the first of three auxiliary parts
leaves the remaining two labeled 2 and 3. -/
theorem unregister_relabels_dense_witness :
    labelOf (unregisterPart exState3 exAux1) exAux2.id = some 2 ∧
    labelOf (unregisterPart exState3 exAux1) exAux3.id = some 3 := by
  have h := unregister_relabels_dense exState3 exAux1 (by decide)
  exact ⟨h.2 [exAux2, exAux3] 0 exAux2 (by decide) (by decide) (by decide),
         h.2 [exAux2, exAux3] 1 exAux3 (by decide) (by decide) (by decide)⟩

/-- C4: during restoration with a persisted snapshot carrying auxiliary
entries, after the creation fan-out has settled: when the persisted MRU entry
count equals the now-current Part count the MRU list is rebuilt by mapping
each saved position to the Part at that position in the current parts array,
and otherwise it becomes the parts array itself (registration order: main
part first, then auxiliary parts in creation order). -/
theorem restore_mru_rebuild (u : IEditorPartsUIState)
    (parts mru0 : List EditorPart) (haux : u.auxiliary ≠ []) :
    (u.mru.length = parts.length →
      (restoreMruUpdate true (some u) parts mru0).length = u.mru.length ∧
      (∀ j k, u.mru.get? j = some k → 0 ≤ k → k.toNat < parts.length →
        (restoreMruUpdate true (some u) parts mru0).get? j = parts.get? k.toNat)) ∧
    (u.mru.length ≠ parts.length →
      restoreMruUpdate true (some u) parts mru0 = parts) := by
  have hlen : u.auxiliary.length ≠ 0 := by
    simpa [List.length_eq_zero] using haux
  constructor
  · intro hcount
    have hred : restoreMruUpdate true (some u) parts mru0
        = u.mru.map (fun index => jsPartAt parts index) := by
      simp [restoreMruUpdate, hlen, hcount]
    rw [hred]
    refine ⟨by simp, fun j k hj hk0 hklt => ?_⟩
    rw [List.get?_map, hj]
    cases hx : parts.get? k.toNat with
    | none =>
      rw [List.get?_eq_none] at hx
      omega
    | some x =>
      have hx2 : parts[k.toNat]? = some x := by
        rw [← List.get?_eq_getElem?]
        exact hx
      simp [jsPartAt, hk0, hx2]
  · intro hcount
    simp [restoreMruUpdate, hlen, hcount]

/-- C4 witness: a matching-count rebuild maps saved position 1 to the part at
index 1, and a mismatched count falls back to the parts array. -/
theorem restore_mru_rebuild_witness :
    (restoreMruUpdate true
      (some { auxiliary := [{ state := 6, bounds := none, zoomLevel := none }],
              mru := [1, 0] }) [exMain, exAux1] [exMain]).get? 0
      = [exMain, exAux1].get? (Int.toNat 1) ∧
    restoreMruUpdate true
      (some { auxiliary := [{ state := 6, bounds := none, zoomLevel := none }],
              mru := [1] }) [exMain, exAux1] [exMain] = [exMain, exAux1] := by
  have h1 := restore_mru_rebuild
    { auxiliary := [{ state := 6, bounds := none, zoomLevel := none }], mru := [1, 0] }
    [exMain, exAux1] [exMain] (by decide)
  have h2 := restore_mru_rebuild
    { auxiliary := [{ state := 6, bounds := none, zoomLevel := none }], mru := [1] }
    [exMain, exAux1] [exMain] (by decide)
  exact ⟨(h1.1 (by decide)).2 0 1 (by decide) (by decide) (by decide),
         h2.2 (by decide)⟩

/-- C5: saving with zero auxiliary parts deletes the stored snapshot rather
than writing an empty one; with at least one auxiliary part the snapshot
holds exactly one entry per registered non-main Part (its layout snapshot,
bounds and zoom) plus the MRU recorded as positions of its Parts within the
current full parts array. -/
theorem saveState_snapshot (s : EditorPartsState) :
    ((s.parts.filter (fun part => part ≠ s.mainPart)) = [] → saveState s = none) ∧
    ((s.parts.filter (fun part => part ≠ s.mainPart)) ≠ [] →
      ∃ u, saveState s = some u ∧
        u.auxiliary = (s.parts.filter (fun part => part ≠ s.mainPart)).map
          (fun part => { state := part.createState, bounds := part.bounds,
                         zoomLevel := part.zoomLevel }) ∧
        u.mru = s.mostRecentActiveParts.map (fun part => jsIndexOfPart s.parts part) ∧
        (∀ j p, s.mostRecentActiveParts.get? j = some p → p ∈ s.parts →
          ∃ k : Nat, u.mru.get? j = some ((k : Int)) ∧ s.parts.get? k = some p)) := by
  constructor
  · intro h
    have hz : ((s.parts.filter (fun part => part ≠ s.mainPart)).map
        (fun part => ({ state := part.createState, bounds := part.bounds,
                        zoomLevel := part.zoomLevel } : IAuxiliaryEditorPartState))).length = 0 := by
      rw [List.length_map, h]
      rfl
    simp only [saveState]
    rw [if_pos hz]
  · intro h
    have hne : ¬((s.parts.filter (fun part => part ≠ s.mainPart)).map
        (fun part => ({ state := part.createState, bounds := part.bounds,
                        zoomLevel := part.zoomLevel } : IAuxiliaryEditorPartState))).length = 0 := by
      simpa [List.length_eq_zero] using h
    refine ⟨⟨(s.parts.filter (fun part => part ≠ s.mainPart)).map
        (fun part => { state := part.createState, bounds := part.bounds,
                       zoomLevel := part.zoomLevel }),
      s.mostRecentActiveParts.map (fun part => jsIndexOfPart s.parts part)⟩,
      ?_, rfl, rfl, ?_⟩
    · simp only [saveState]
      rw [if_neg hne]
    · intro j p hj hp
      refine ⟨List.indexOf p s.parts, ?_, List.indexOf_get? hp⟩
      rw [List.get?_map, hj]
      simp [jsIndexOfPart, hp]

/-- C5 witness: the zero-auxiliary state deletes the snapshot and the
two-auxiliary state stores two entries. -/
theorem saveState_snapshot_witness :
    saveState exState0 = none ∧
    ∃ u, saveState exState2 = some u ∧ u.auxiliary.length = 2 := by
  have h0 := saveState_snapshot exState0
  have h2 := saveState_snapshot exState2
  refine ⟨h0.1 (by decide), ?_⟩
  obtain ⟨u, hu, ha, _⟩ := h2.2 (by decide)
  refine ⟨u, hu, ?_⟩
  rw [ha]
  decide

lemma eq_singleton_of_length_le_one {α : Type} {l : List α} {a : α}
    (hlen : l.length ≤ 1) (ha : a ∈ l) : l = [a] := by
  cases l with
  | nil => simp at ha
  | cons b rest =>
    cases rest with
    | nil =>
      rcases List.mem_singleton.mp ha with rfl
      rfl
    | cons c rest2 => simp at hlen

lemma getGroup_chars (s : EditorPartsState) (hmain : s.mainPart ∈ s.parts) (n : Nat) :
    (getGroup s n = none ↔ ∀ p ∈ s.parts, n ∉ p.groups) ∧
    (∀ p ∈ s.parts, n ∈ p.groups → getGroup s n = some n) := by
  have hpart_none : ∀ p : EditorPart, p.getGroup n = none ↔ n ∉ p.groups := by
    intro p
    unfold EditorPart.getGroup
    by_cases hc : n ∈ p.groups
    · simp [hc]
    · simp [hc]
  have hpart_some : ∀ p : EditorPart, n ∈ p.groups → p.getGroup n = some n := by
    intro p hp
    unfold EditorPart.getGroup
    simp [hp]
  by_cases hm : 1 < s.parts.length
  · constructor
    · unfold getGroup
      rw [if_pos hm]
      cases hfs : s.parts.findSome? (fun part => part.getGroup n) with
      | some g =>
        obtain ⟨p, hp, hpg⟩ := List.exists_of_findSome?_eq_some hfs
        refine iff_of_false (by simp) ?_
        intro hall
        rw [(hpart_none p).mpr (hall p hp)] at hpg
        exact Option.noConfusion hpg
      | none =>
        rw [List.findSome?_eq_none] at hfs
        exact iff_of_true (hfs s.mainPart hmain)
          (fun p hp => (hpart_none p).mp (hfs p hp))
    · intro p hp hn
      unfold getGroup
      rw [if_pos hm]
      cases hfs : s.parts.findSome? (fun part => part.getGroup n) with
      | some g =>
        obtain ⟨q, _, hqg⟩ := List.exists_of_findSome?_eq_some hfs
        unfold EditorPart.getGroup at hqg
        by_cases hqc : n ∈ q.groups
        · rw [if_pos hqc] at hqg
          injection hqg with h
          rw [h]
        · rw [if_neg hqc] at hqg
          exact Option.noConfusion hqg
      | none =>
        rw [List.findSome?_eq_none] at hfs
        have hcontr := hfs p hp
        rw [hpart_some p hn] at hcontr
        exact Option.noConfusion hcontr
  · have hone : s.parts = [s.mainPart] :=
      eq_singleton_of_length_le_one (Nat.le_of_not_lt hm) hmain
    constructor
    · unfold getGroup
      rw [if_neg hm, hpart_none s.mainPart, hone]
      simp
    · intro p hp hn
      rw [hone, List.mem_singleton] at hp
      subst hp
      unfold getGroup
      rw [if_neg hm]
      exact hpart_some s.mainPart hn

/-- C9: the strict resolution path raises the invalid-group error exactly
when its argument is an identifier owned by no registered Part; a concrete
group view, or an identifier owned by some registered Part, is returned
without error. -/
theorem assertGroupView_invalid_group (s : EditorPartsState)
    (hmain : s.mainPart ∈ s.parts) :
    (∀ v, assertGroupView s (.view v) = .ok v) ∧
    (∀ n, assertGroupView s (.identifier n) = .error "Invalid editor group provided!"
       ↔ ∀ p ∈ s.parts, n ∉ p.groups) ∧
    (∀ n p, p ∈ s.parts → n ∈ p.groups → assertGroupView s (.identifier n) = .ok n) := by
  have hred : ∀ n : Nat, assertGroupView s (.identifier n)
      = match getGroup s n with
        | none => Except.error "Invalid editor group provided!"
        | some g => Except.ok g := fun _ => rfl
  refine ⟨fun v => rfl, fun n => ?_, fun n p hp hn => ?_⟩
  · have hc := getGroup_chars s hmain n
    rw [hred n]
    cases hg : getGroup s n with
    | none =>
      exact iff_of_true rfl (hc.1.mp hg)
    | some g =>
      refine iff_of_false (by simp) ?_
      intro hall
      rw [hc.1.mpr hall] at hg
      exact Option.noConfusion hg
  · have hc := getGroup_chars s hmain n
    rw [hred n, hc.2 p hp hn]

/-- C9 witness: a missing identifier raises, an owned identifier and a
concrete view resolve, in the three-part state. -/
theorem assertGroupView_invalid_group_witness :
    assertGroupView exState2 (.identifier 999)
      = .error "Invalid editor group provided!" ∧
    assertGroupView exState2 (.identifier 30) = .ok 30 ∧
    assertGroupView exState2 (.view 31) = .ok 31 := by
  have h := assertGroupView_invalid_group exState2 (by decide)
  exact ⟨(h.2.1 999).mpr (by decide), h.2.2 30 exAux2 (by decide) (by decide),
         h.1 31⟩

/-- C7: with more than one registered Part, FIRST and LAST return the very
first, respectively very last, group of the full grid-appearance-ordered
list regardless of source; with exactly one registered Part (the main part),
the call is delegated directly to that Part's own search. -/
theorem findGroup_first_last_global
    (lf : EditorPart → FindGroupScope → GroupArg → Bool → Option Nat)
    (s : EditorPartsState) (source : GroupArg) (wrap : Bool) :
    (1 < s.parts.length →
      findGroup lf s (.location .first) source wrap
        = .ok (getGroups s .gridAppearance).head? ∧
      findGroup lf s (.location .last) source wrap
        = .ok (getGroups s .gridAppearance).getLast?) ∧
    (∀ scope, s.parts = [s.mainPart] →
      findGroup lf s scope source wrap = .ok (lf s.mainPart scope source wrap)) := by
  constructor
  · intro hm
    constructor <;> simp [findGroup, hm]
  · intro scope hone
    have hlen : ¬ 1 < s.parts.length := by
      rw [hone]
      simp
    simp [findGroup, getPart, hlen]

/-- C7 witness: FIRST and LAST at the three-part state, and the one-part
delegation with a concrete local search. -/
theorem findGroup_first_last_global_witness :
    findGroup (fun _ _ _ _ => none) exState2 (.location .first) (.view 31) false
      = .ok (some 10) ∧
    findGroup (fun _ _ _ _ => none) exState2 (.location .last) (.view 10) false
      = .ok (some 31) ∧
    findGroup (fun _ _ _ _ => some 7) exState0 (.location .next) (.view 10) true
      = .ok (some 7) := by
  have h2a := findGroup_first_last_global (fun _ _ _ _ => none) exState2 (.view 31) false
  have h2b := findGroup_first_last_global (fun _ _ _ _ => none) exState2 (.view 10) false
  have h0 := findGroup_first_last_global (fun _ _ _ _ => some 7) exState0 (.view 10) true
  refine ⟨?_, ?_, ?_⟩
  · rw [(h2a.1 (by decide)).1]
    rfl
  · rw [(h2b.1 (by decide)).2]
    rfl
  · rw [h0.2 (.location .next) (by decide)]

/-- C6: with more than one registered Part and NEXT or PREVIOUS, `findGroup`
first runs a same-Part non-wrapping search in the Part owning the source; a
hit is returned as is, and only on a miss does it step from the source's
index in the full grid-appearance-ordered list, `wrap` taking effect only at
the global boundary (answering the opposite global end) and never at a
Part-local boundary. -/
theorem findGroup_next_previous_fallback
    (lf : EditorPart → FindGroupScope → GroupArg → Bool → Option Nat)
    (s : EditorPartsState) (source : GroupArg) (wrap : Bool)
    (hm : 1 < s.parts.length) :
    (∀ loc g, (loc = GroupLocation.next ∨ loc = GroupLocation.previous) →
      lf (getPart s (.group source.gid)) (.location loc) source false = some g →
      findGroup lf s (.location loc) source wrap = .ok (some g)) ∧
    (∀ sg i, lf (getPart s (.group source.gid)) (.location .next) source false = none →
      assertGroupView s source = .ok sg →
      sg ∈ getGroups s .gridAppearance →
      (getGroups s .gridAppearance).indexOf sg = i →
      ((i + 1 < (getGroups s .gridAppearance).length →
        findGroup lf s (.location .next) source wrap
          = .ok ((getGroups s .gridAppearance).get? (i + 1))) ∧
       ((getGroups s .gridAppearance).length ≤ i + 1 →
        findGroup lf s (.location .next) source wrap
          = .ok (if wrap then (getGroups s .gridAppearance).head? else none)))) ∧
    (∀ sg i, lf (getPart s (.group source.gid)) (.location .previous) source false = none →
      assertGroupView s source = .ok sg →
      sg ∈ getGroups s .gridAppearance →
      (getGroups s .gridAppearance).indexOf sg = i →
      ((0 < i →
        findGroup lf s (.location .previous) source wrap
          = .ok ((getGroups s .gridAppearance).get? (i - 1))) ∧
       (i = 0 →
        findGroup lf s (.location .previous) source wrap
          = .ok (if wrap then (getGroups s .gridAppearance).getLast? else none)))) := by
  refine ⟨?_, ?_, ?_⟩
  · rintro loc g (rfl | rfl) hlf
    · simp only [findGroup, hlf, if_pos hm]
      simp
    · simp only [findGroup, hlf, if_pos hm]
      simp
  · intro sg i hlf hassert hmem hidx
    have hred : findGroup lf s (.location .next) source wrap
        = Except.ok
            (if jsGet (getGroups s .gridAppearance)
                  (jsIndexOf (getGroups s .gridAppearance) sg + 1) = none ∧ wrap
             then (getGroups s .gridAppearance).head?
             else jsGet (getGroups s .gridAppearance)
                  (jsIndexOf (getGroups s .gridAppearance) sg + 1)) := by
      simp only [findGroup, hlf, hassert, if_pos hm]
      simp
    have hidxInt : jsIndexOf (getGroups s .gridAppearance) sg = (i : Int) := by
      simp [jsIndexOf, hmem, hidx]
    have hcast : ((i : Int) + 1) = ((i + 1 : Nat) : Int) := by omega
    have hjs : jsGet (getGroups s .gridAppearance) ((i : Int) + 1)
        = (getGroups s .gridAppearance).get? (i + 1) := by
      rw [hcast]
      unfold jsGet
      rw [if_pos (Int.natCast_nonneg _), Int.toNat_natCast]
    constructor
    · intro hlt
      obtain ⟨x, hx⟩ : ∃ x, (getGroups s .gridAppearance).get? (i + 1) = some x := by
        cases h : (getGroups s .gridAppearance).get? (i + 1) with
        | none =>
          rw [List.get?_eq_none] at h
          omega
        | some x => exact ⟨x, rfl⟩
      rw [hred, hidxInt, hjs, hx]
      simp
    · intro hle
      have hnone : (getGroups s .gridAppearance).get? (i + 1) = none :=
        List.get?_eq_none.mpr hle
      rw [hred, hidxInt, hjs, hnone]
      cases wrap <;> simp
  · intro sg i hlf hassert hmem hidx
    have hred : findGroup lf s (.location .previous) source wrap
        = Except.ok
            (if jsGet (getGroups s .gridAppearance)
                  (jsIndexOf (getGroups s .gridAppearance) sg - 1) = none ∧ wrap
             then (getGroups s .gridAppearance).getLast?
             else jsGet (getGroups s .gridAppearance)
                  (jsIndexOf (getGroups s .gridAppearance) sg - 1)) := by
      simp only [findGroup, hlf, hassert, if_pos hm]
      simp
    have hidxInt : jsIndexOf (getGroups s .gridAppearance) sg = (i : Int) := by
      simp [jsIndexOf, hmem, hidx]
    have hilt : i < (getGroups s .gridAppearance).length := by
      rw [← hidx]
      exact List.indexOf_lt_length.mpr hmem
    constructor
    · intro hpos
      have hcast : ((i : Int) - 1) = ((i - 1 : Nat) : Int) := by omega
      have hjs : jsGet (getGroups s .gridAppearance) ((i : Int) - 1)
          = (getGroups s .gridAppearance).get? (i - 1) := by
        rw [hcast]
        unfold jsGet
        rw [if_pos (Int.natCast_nonneg _), Int.toNat_natCast]
      obtain ⟨x, hx⟩ : ∃ x, (getGroups s .gridAppearance).get? (i - 1) = some x := by
        cases h : (getGroups s .gridAppearance).get? (i - 1) with
        | none =>
          rw [List.get?_eq_none] at h
          omega
        | some x => exact ⟨x, rfl⟩
      rw [hred, hidxInt, hjs, hx]
      simp
    · intro hzero
      subst hzero
      have hjs : jsGet (getGroups s .gridAppearance) ((0 : Nat) - 1) = none := by
        unfold jsGet
        rw [if_neg (by omega)]
      rw [hred, hidxInt, hjs]
      cases wrap <;> simp

/-- C6 witness: with three parts and grid order [10,11,20,30,31], a local
miss on NEXT from 20 steps to index 3, the global boundary at 31 wraps to
the head, and a local hit short-circuits. -/
theorem findGroup_next_previous_fallback_witness :
    findGroup (fun _ _ _ _ => none) exState2 (.location .next) (.view 20) false
      = .ok ((getGroups exState2 .gridAppearance).get? 3) ∧
    findGroup (fun _ _ _ _ => none) exState2 (.location .next) (.view 31) true
      = .ok (if true then (getGroups exState2 .gridAppearance).head? else none) ∧
    findGroup (fun _ _ _ _ => some 9) exState2 (.location .previous) (.view 10) true
      = .ok (some 9) := by
  have h1 := findGroup_next_previous_fallback (fun _ _ _ _ => none) exState2
    (.view 20) false (by decide)
  have h2 := findGroup_next_previous_fallback (fun _ _ _ _ => none) exState2
    (.view 31) true (by decide)
  have h3 := findGroup_next_previous_fallback (fun _ _ _ _ => some 9) exState2
    (.view 10) true (by decide)
  refine ⟨?_, ?_, ?_⟩
  · exact (h1.2.1 20 2 rfl rfl (by decide) (by decide)).1 (by decide)
  · exact (h2.2.1 31 4 rfl rfl (by decide) (by decide)).2 (by decide)
  · exact h3.1 .previous 9 (Or.inr rfl) rfl

/-- C10 counterexample: persisted positions [1, 1] are valid indices into the
two-part array, the entry count matches, yet the rebuilt MRU list is
[exAux1, exAux1] and omits the registered main part. -/
theorem restore_mru_valid_positions_counterexample :
    restoreMruUpdate true
      (some { auxiliary := [{ state := 6, bounds := none, zoomLevel := none }],
              mru := [1, 1] }) [exMain, exAux1] [exMain] = [exAux1, exAux1] ∧
    exMain ∉ ([exAux1, exAux1] : List EditorPart) ∧
    exMain ∈ ([exMain, exAux1] : List EditorPart) := by decide

/-- C10 amended: the main part is always an element of the MRU list and the
list is never empty — it is initialized to [main part]; focus preserves the
main part's membership; unregistration of a non-main part preserves it; the
restoration rebuild includes every registered Part provided the persisted
positions are pairwise distinct valid indices into the parts array (validity
alone does not suffice); and a list containing the main part has a defined
head, so the MRU head used to select input focus is a defined Part. -/
theorem mru_main_always_present (main : EditorPart) :
    ((EditorPartsState.init main).mostRecentActiveParts = [main]) ∧
    (∀ (l : List EditorPart) (p : EditorPart), main ∈ l →
      main ∈ doUpdateMostRecentActive l p true) ∧
    (∀ (l : List EditorPart) (p : EditorPart), main ∈ l → p ≠ main →
      main ∈ doUpdateMostRecentActive l p false) ∧
    (∀ (u : IEditorPartsUIState) (parts mru0 : List EditorPart),
      u.auxiliary ≠ [] → u.mru.length = parts.length → u.mru.Nodup →
      (∀ k ∈ u.mru, 0 ≤ k ∧ k.toNat < parts.length) →
      ∀ p ∈ parts, p ∈ restoreMruUpdate true (some u) parts mru0) ∧
    (∀ l : List EditorPart, main ∈ l → l.head?.isSome = true) := by
  refine ⟨rfl, ?_, ?_, ?_, ?_⟩
  · intro l p hl
    unfold doUpdateMostRecentActive
    by_cases hpm : p = main
    · subst hpm
      exact List.mem_cons_self p _
    · have : main ∈ l.erase p :=
        (List.mem_erase_of_ne (fun h => hpm h.symm)).mpr hl
      exact List.mem_cons_of_mem p this
  · intro l p hl hpm
    unfold doUpdateMostRecentActive
    exact (List.mem_erase_of_ne (fun h => hpm h.symm)).mpr hl
  · intro u parts mru0 haux hcount hnd hvalid p hp
    have hlen0 : u.auxiliary.length ≠ 0 := by
      simpa [List.length_eq_zero] using haux
    have hred : restoreMruUpdate true (some u) parts mru0
        = u.mru.map (fun index => jsPartAt parts index) := by
      simp [restoreMruUpdate, hlen0, hcount]
    rw [hred]
    obtain ⟨m, hm⟩ := List.mem_iff_get?.mp hp
    have hmlt : m < parts.length := by
      by_contra hc
      rw [List.get?_eq_none.mpr (Nat.le_of_not_lt hc)] at hm
      exact Option.noConfusion hm
    have hinj : ∀ x ∈ u.mru, ∀ y ∈ u.mru, x.toNat = y.toNat → x = y := by
      intro x hx y hy hxy
      have hx0 := (hvalid x hx).1
      have hy0 := (hvalid y hy).1
      omega
    have hndn : (u.mru.map Int.toNat).Nodup := hnd.map_on hinj
    have hsub : (u.mru.map Int.toNat).toFinset ⊆ Finset.range parts.length := by
      intro a ha
      rw [List.mem_toFinset, List.mem_map] at ha
      obtain ⟨k, hk, rfl⟩ := ha
      exact Finset.mem_range.mpr (hvalid k hk).2
    have hcard : (Finset.range parts.length).card ≤ (u.mru.map Int.toNat).toFinset.card := by
      rw [List.toFinset_card_of_nodup hndn, List.length_map, hcount, Finset.card_range]
    have heq := Finset.eq_of_subset_of_card_le hsub hcard
    have hmem_m : m ∈ (u.mru.map Int.toNat).toFinset := by
      rw [heq]
      exact Finset.mem_range.mpr hmlt
    rw [List.mem_toFinset, List.mem_map] at hmem_m
    obtain ⟨k, hk, hkm⟩ := hmem_m
    refine List.mem_map.mpr ⟨k, hk, ?_⟩
    have hk0 := (hvalid k hk).1
    unfold jsPartAt
    rw [if_pos hk0, hkm, hm]
    rfl
  · intro l hl
    cases l with
    | nil => simp at hl
    | cons a rest => rfl

/-- C10 amended witness: concrete preservation through focus, and a rebuild
from distinct valid positions [1, 0] that contains the main part. -/
theorem mru_main_always_present_witness :
    exMain ∈ doUpdateMostRecentActive [exMain] exAux1 true ∧
    exMain ∈ restoreMruUpdate true
      (some { auxiliary := [{ state := 6, bounds := none, zoomLevel := none }],
              mru := [1, 0] }) [exMain, exAux1] [exMain] := by
  have h := mru_main_always_present exMain
  exact ⟨h.2.1 [exMain] exAux1 (by decide),
         h.2.2.2.1
           { auxiliary := [{ state := 6, bounds := none, zoomLevel := none }],
             mru := [1, 0] }
           [exMain, exAux1] [exMain] (by decide) (by decide) (by decide)
           (by decide) exMain (by decide)⟩
